import Mathlib

/-!
Verification of the IosevkAlly font subsetting / webfont pipeline.

This file is a shallow embedding of the parts of the repository that the
checked properties talk about:

* `src/common/helpers.py` — `css_stringify` and `ints_to_unicode_range`;
* `src/common/structs.py` — the `Subset` catalog, `FontFile`, `FontSubset`,
  `FontVariant` (including `from_file_path` weight parsing and
  `to_css_font_faces` CSS generation), and the coverage cache
  `available_unicode_characters`;
* `src/build.py` — `MIN_CHARS_FOR_SUBSET`, `font_file_to_subset` and
  `font_file_to_subsets`.

Modelling conventions:

* Python `sorted(...)` is modelled by `List.insertionSort (· ≤ ·)`
  (extensionally the ascending reordering of a list of naturals).
* Python `set(...)` values are modelled by duplicate-free lists (`List.dedup`)
  together with `Finset`s at the statement level; `set.intersection` becomes a
  `List.filter` by membership.
* External primitives (file system reads, the fontTools subsetter, the cmap
  tables of a real font file) are reified as explicit parameters or as the
  recorded arguments of the call, as documented at each definition.
* Python string helpers used by the sources (`os.path.basename`,
  `os.path.splitext`, `str.split`, `str.lower`, `str.startswith`,
  `"x" in s`, `",".join`) are given executable models over `String.data`
  character lists.
-/

/-! ## Generic string helpers (models of the Python primitives used) -/

/-- Model of Python `sep.join(parts)`. -/
def joinSep (sep : String) : List String → String
  | [] => ""
  | [x] => x
  | x :: y :: rest => x ++ sep ++ joinSep sep (y :: rest)

/-- Model of Python `os.path.basename`: the part of the path after the last
slash. -/
def basename (s : String) : String :=
  ⟨(s.data.reverse.takeWhile (· ≠ '/')).reverse⟩

/-- Characters of `cs` with the last `.`-separated extension removed
(the `.` itself included). -/
def dropLastExt (cs : List Char) : List Char :=
  ((cs.reverse.dropWhile (· ≠ '.')).drop 1).reverse

/-- Model of Python `os.path.splitext(s)[0]`: the path minus its last
extension; leading dots of the name never start an extension. -/
def splitext_base (s : String) : String :=
  let cs := s.data
  let lead := cs.takeWhile (· = '.')
  let rest := cs.drop lead.length
  if rest.contains '.' then ⟨lead ++ dropLastExt rest⟩ else s

/-- Model of Python `s.split("-")[-1]`: the part after the last dash
(the whole string when there is no dash). -/
def lastSplitDash (s : String) : String :=
  ⟨(s.data.reverse.takeWhile (· ≠ '-')).reverse⟩

/-- Model of Python `s.lower()`. -/
def toLowerStr (s : String) : String :=
  ⟨s.data.map Char.toLower⟩

/-- Model of Python `s.startswith(p)`. -/
def startsWithStr (s p : String) : Bool :=
  s.data.take p.data.length == p.data

/-- Model of Python `s.endswith(p)`. -/
def endsWithStr (s p : String) : Bool :=
  s.data.drop (s.data.length - p.data.length) == p.data

/-- Whether the character list `sub` occurs contiguously in `cs`. -/
def containsChars (sub : List Char) : List Char → Bool
  | [] => sub == []
  | c :: cs => ((c :: cs).take sub.length == sub) || containsChars sub cs

/-- Model of Python `sub in s` for strings. -/
def containsStr (s sub : String) : Bool :=
  containsChars sub.data s.data

/-- Model of Python `pathlib.Path.suffix.strip(".")`: the last extension of
the final path component, without its dot (empty when there is none). -/
def path_suffix (p : String) : String :=
  let b := (basename p).data
  let lead := b.takeWhile (· = '.')
  let rest := b.drop lead.length
  if rest.contains '.' then ⟨(rest.reverse.takeWhile (· ≠ '.')).reverse⟩ else ""

/-- Model of Python `pathlib.Path.with_suffix(suf)`: replace the last
extension by `suf`. -/
def with_suffix (p suf : String) : String :=
  splitext_base p ++ suf

/-! ## Hexadecimal rendering and parsing of code points

`ints_to_unicode_range` (src/common/helpers.py) renders code points with
`hex(c)[2:].upper()`; descriptors are parsed back (externally, by
`fontTools.subset.parse_unicodes` and by browsers) as inclusive hex ranges.
-/

/-- The uppercase hexadecimal digit character for `k < 16`. -/
def hexDigitChar (k : Nat) : Char :=
  if k < 10 then Char.ofNat (48 + k) else Char.ofNat (55 + k)

/-- Fuel-driven most-significant-first hex digits of `n`; `fuel ≥ n` makes the
fuel irrelevant.  `hexDigitsCore fuel 0 = []`. -/
def hexDigitsCore : Nat → Nat → List Char
  | _, 0 => []
  | 0, _ + 1 => []
  | fuel + 1, n + 1 =>
    hexDigitsCore fuel ((n + 1) / 16) ++ [hexDigitChar ((n + 1) % 16)]

/-- The hex digits of `n` (empty for `0`). -/
def hexDigits (n : Nat) : List Char := hexDigitsCore n n

/-- Model of Python `hex(c)[2:].upper()` as used by the `enc` helper inside
`ints_to_unicode_range`: uppercase hex without leading zeros, `"0"` for zero. -/
def enc (n : Nat) : String :=
  if n = 0 then "0" else ⟨hexDigits n⟩

/-- Numeric value of one hex digit character (either case); `0` otherwise. -/
def hexDigitVal (c : Char) : Nat :=
  if 48 ≤ c.toNat ∧ c.toNat ≤ 57 then c.toNat - 48
  else if 65 ≤ c.toNat ∧ c.toNat ≤ 70 then c.toNat - 55
  else if 97 ≤ c.toNat ∧ c.toNat ≤ 102 then c.toNat - 87
  else 0

/-- Numeric value of a most-significant-first hex digit string. -/
def hexVal (cs : List Char) : Nat :=
  cs.foldl (fun a c => 16 * a + hexDigitVal c) 0

/-- Split a character list at the first `'-'` (returning `none` as the second
component when there is no dash). -/
def splitAtDash : List Char → List Char × Option (List Char)
  | [] => ([], none)
  | c :: rest =>
    if c = '-' then ([], some rest)
    else
      let r := splitAtDash rest
      (c :: r.1, r.2)

/-- Decode one `U+XXXX` / `U+XXXX-YYYY` range descriptor to the inclusive list
of code points it covers.  This is the standard meaning of a unicode-range
descriptor (the semantics applied externally by
`fontTools.subset.parse_unicodes` and by CSS `unicode-range` consumers). -/
def decodeRangeStr (s : String) : List Nat :=
  let body := s.data.drop 2
  match splitAtDash body with
  | (a, none) => [hexVal a]
  | (a, some b) => List.range' (hexVal a) (hexVal b + 1 - hexVal a)

/-- Decode a sequence of range descriptors to the concatenation of the code
points they cover. -/
def decode_unicode_range (l : List String) : List Nat :=
  (l.map decodeRangeStr).flatten

/-! ## The Range Encoder: `ints_to_unicode_range` (src/common/helpers.py) -/

/-- Model of Python `sorted` on a list of naturals. -/
def sortNat (l : List Nat) : List Nat :=
  List.insertionSort (· ≤ ·) l

/-- The scanning loop of `ints_to_unicode_range`: `start`/`e` is the open
interval, `rest` the remaining (sorted) input; an element equal to `e + 1`
extends the interval, anything else closes it and opens a new one; the final
interval is always emitted.  Emitted intervals are kept as `(start, end)`
pairs, rendered afterwards by `rangeStr` (the inner `_` helper). -/
def rangeChunksAux (start e : Nat) : List Nat → List (Nat × Nat)
  | [] => [(start, e)]
  | i :: rest =>
    if i = e + 1 then rangeChunksAux start i rest
    else (start, e) :: rangeChunksAux i i rest

/-- The `(start, end)` intervals emitted by `ints_to_unicode_range` on input
`ints`, in emission order (the input is sorted first, as in the source). -/
def rangeChunks (ints : List Nat) : List (Nat × Nat) :=
  match sortNat ints with
  | [] => []
  | x :: rest => rangeChunksAux x x rest

/-- The inner `_` helper of `ints_to_unicode_range`: `U+start` for a
single-point interval, `U+start-end` when `end > start`. -/
def rangeStr (p : Nat × Nat) : String :=
  if p.2 > p.1 then "U+" ++ enc p.1 ++ "-" ++ enc p.2 else "U+" ++ enc p.1

/-- `ints_to_unicode_range` (src/common/helpers.py): compress a list of code
points into unicode-range descriptor strings.  Empty input yields `[]`;
otherwise the input is sorted and scanned once, merging consecutive values
into inclusive ranges. -/
def ints_to_unicode_range (ints : List Nat) : List String :=
  (rangeChunks ints).map rangeStr

/-- The inclusive list of code points covered by one `(start, end)` pair. -/
def chunkCodes (p : Nat × Nat) : List Nat :=
  List.range' p.1 (p.2 + 1 - p.1)

/-- The code points covered by a list of `(start, end)` pairs, in order. -/
def decodeChunks (l : List (Nat × Nat)) : List Nat :=
  (l.map chunkCodes).flatten

/-! ## CSS serialization: `css_stringify` (src/common/helpers.py) -/

/-- The universe of values fed to `css_stringify` in this program: Python
ints, plain strings, `CssStr` wrappers, lists, tuples and string-keyed dicts. -/
inductive CssVal where
  | num (n : Nat)
  | str (s : String)
  | cssStr (s : String)
  | list (l : List CssVal)
  | tuple (l : List CssVal)
  | dict (l : List (String × CssVal))

/-- The lowercase hexadecimal digit character for `k < 16`. -/
def hexDigitCharLower (k : Nat) : Char :=
  if k < 10 then Char.ofNat (48 + k) else Char.ofNat (87 + k)

/-- A `\uXXXX` escape (four lowercase hex digits) for `n < 0x10000`. -/
def uHex4 (n : Nat) : List Char :=
  ['\\', 'u', hexDigitCharLower (n / 4096 % 16), hexDigitCharLower (n / 256 % 16),
   hexDigitCharLower (n / 16 % 16), hexDigitCharLower (n % 16)]

/-- Model of how Python `json.dumps` (default `ensure_ascii=True`) escapes one
character inside a string literal. -/
def jsonEscapeChar (c : Char) : List Char :=
  if c = '"' then ['\\', '"']
  else if c = '\\' then ['\\', '\\']
  else if c = Char.ofNat 8 then ['\\', 'b']
  else if c = Char.ofNat 9 then ['\\', 't']
  else if c = Char.ofNat 10 then ['\\', 'n']
  else if c = Char.ofNat 12 then ['\\', 'f']
  else if c = Char.ofNat 13 then ['\\', 'r']
  else if c.toNat < 32 then uHex4 c.toNat
  else if c.toNat < 127 then [c]
  else if c.toNat < 65536 then uHex4 c.toNat
  else uHex4 (55296 + (c.toNat - 65536) / 1024) ++ uHex4 (56320 + (c.toNat - 65536) % 1024)

/-- Model of Python `json.dumps` on a string: the escaped characters wrapped
in double quotes. -/
def json_dumps_str (s : String) : String :=
  ⟨'"' :: ((s.data.map jsonEscapeChar).flatten ++ ['"'])⟩

mutual

/-- `css_stringify` (src/common/helpers.py): ints and strings go through
`json.dumps` (so every plain string is double-quoted), `CssStr` values are
emitted verbatim, lists join with `","`, tuples join with `" "`, and dicts
render each entry as `key(value)` joined with `" "`. -/
def css_stringify : CssVal → String
  | .num n => toString n
  | .str s => json_dumps_str s
  | .cssStr s => s
  | .list l => joinSep "," (css_stringify_list l)
  | .tuple l => joinSep " " (css_stringify_list l)
  | .dict l => joinSep " " (css_stringify_entries l)

/-- `map(css_stringify, ...)` over a list value's elements. -/
def css_stringify_list : List CssVal → List String
  | [] => []
  | v :: vs => css_stringify v :: css_stringify_list vs

/-- The `f"{k}({css_stringify(v)})"` rendering of a dict's entries. -/
def css_stringify_entries : List (String × CssVal) → List String
  | [] => []
  | (k, v) :: rest => (k ++ "(" ++ css_stringify v ++ ")") :: css_stringify_entries rest

end

/-! ## The Subset catalog (src/common/structs.py, class `Subset`) -/

/-- The closed catalog of script subsets, in declaration (= iteration)
order. -/
inductive Subset where
  | arabic | bengali | cyrillic | cyrillicExt | devanagari | georgian
  | greek | greekExt | gujarati | gurmukhi | hebrew | kannada | khmer
  | latin | latinExt | malayalam | myanmar | oriya | sinhala | tamil
  | telugu | thai | tibetan | vietnamese
deriving DecidableEq

/-- The `StrEnum` string value of each subset (used in output file names). -/
def Subset.value : Subset → String
  | .arabic => "arabic"
  | .bengali => "bengali"
  | .cyrillic => "cyrillic"
  | .cyrillicExt => "cyrillic-ext"
  | .devanagari => "devanagari"
  | .georgian => "georgian"
  | .greek => "greek"
  | .greekExt => "greek-ext"
  | .gujarati => "gujarati"
  | .gurmukhi => "gurmukhi"
  | .hebrew => "hebrew"
  | .kannada => "kannada"
  | .khmer => "khmer"
  | .latin => "latin"
  | .latinExt => "latin-ext"
  | .malayalam => "malayalam"
  | .myanmar => "myanmar"
  | .oriya => "oriya"
  | .sinhala => "sinhala"
  | .tamil => "tamil"
  | .telugu => "telugu"
  | .thai => "thai"
  | .tibetan => "tibetan"
  | .vietnamese => "vietnamese"

/-- `Subset.as_unicode_range` (src/common/structs.py): the nominal
unicode-range descriptors of each catalog subset, transcribed verbatim. -/
def Subset.as_unicode_range : Subset → List String
  | .arabic =>
    ["U+0600-06FF", "U+200C-200E", "U+2010-2011", "U+204F", "U+2E41",
     "U+FB50-FDFF", "U+FE80-FEFC"]
  | .bengali =>
    ["U+0964-0965", "U+0981-09FB", "U+200C-200D", "U+20B9", "U+25CC"]
  | .cyrillic =>
    ["U+0400-045F", "U+0490-0491", "U+04B0-04B1", "U+2116"]
  | .cyrillicExt =>
    ["U+0460-052F", "U+1C80-1C88", "U+20B4", "U+2DE0-2DFF", "U+A640-A69F",
     "U+FE2E-FE2F"]
  | .devanagari =>
    ["U+0900-097F", "U+1CD0-1CF6", "U+1CF8-1CF9", "U+200C-200D", "U+20A8",
     "U+20B9", "U+25CC", "U+A830-A839", "U+A8E0-A8FB"]
  | .georgian => ["U+10A0-10FF"]
  | .greek => ["U+0370-03FF"]
  | .greekExt => ["U+1F00-1FFF"]
  | .gujarati =>
    ["U+0964-0965", "U+0A80-0AFF", "U+200C-200D", "U+20B9", "U+25CC",
     "U+A830-A839"]
  | .gurmukhi =>
    ["U+0964-0965", "U+0A01-0A75", "U+200C-200D", "U+20B9", "U+25CC",
     "U+262C", "U+A830-A839"]
  | .hebrew => ["U+0590-05FF", "U+20AA", "U+25CC", "U+FB1D-FB4F"]
  | .kannada =>
    ["U+0964-0965", "U+0C82-0CF2", "U+200C-200D", "U+20B9", "U+25CC"]
  | .khmer => ["U+1780-17FF", "U+200C", "U+25CC"]
  | .latin =>
    ["U+0000-00FF", "U+0131", "U+0152-0153", "U+02BB-02BC", "U+02C6",
     "U+02DA", "U+02DC", "U+2000-206F", "U+2074", "U+20AC", "U+2122",
     "U+2191", "U+2193", "U+2212", "U+2215", "U+FEFF", "U+FFFD"]
  | .latinExt =>
    ["U+0100-024F", "U+0259", "U+1E00-1EFF", "U+2020", "U+20A0-20AB",
     "U+20AD-20CF", "U+2113", "U+2C60-2C7F", "U+A720-A7FF"]
  | .malayalam =>
    ["U+0307", "U+0323", "U+0964-0965", "U+0D02-0D7F", "U+200C-200D",
     "U+20B9", "U+25CC"]
  | .myanmar => ["U+1000-109F", "U+200C-200D", "U+25CC"]
  | .oriya =>
    ["U+0964-0965", "U+0B01-0B77", "U+200C-200D", "U+20B9", "U+25CC"]
  | .sinhala => ["U+0964-0965", "U+0D82-0DF4", "U+200C-200D", "U+25CC"]
  | .tamil =>
    ["U+0964-0965", "U+0B82-0BFA", "U+200C-200D", "U+20B9", "U+25CC"]
  | .telugu =>
    ["U+0951-0952", "U+0964-0965", "U+0C00-0C7F", "U+1CDA", "U+200C-200D",
     "U+25CC"]
  | .thai => ["U+0E01-0E5B", "U+200C-200D", "U+25CC"]
  | .tibetan => ["U+0F00-0FFF", "U+200C-200D", "U+25CC"]
  | .vietnamese => ["U+0102-0103", "U+0110-0111", "U+1EA0-1EF9", "U+20AB"]

/-- `Subset.all` / `list(Subset)`: every subset in declaration order. -/
def Subset.all : List Subset :=
  [.arabic, .bengali, .cyrillic, .cyrillicExt, .devanagari, .georgian,
   .greek, .greekExt, .gujarati, .gurmukhi, .hebrew, .kannada, .khmer,
   .latin, .latinExt, .malayalam, .myanmar, .oriya, .sinhala, .tamil,
   .telugu, .thai, .tibetan, .vietnamese]

/-! ## Font data structures (src/common/structs.py) -/

/-- `FontFile`: a font resource on disk.  `_unicodes_available` is the lazily
computed coverage cache. -/
structure FontFile where
  file_path : String
  format : String
  relative_to_path : Option String := none
  _unicodes_available : Option (List Nat) := none
deriving DecidableEq

/-- `FontFile.from_path`: format defaults to the path's extension. -/
def FontFile.from_path (path : String) (format : Option String := none) : FontFile :=
  { file_path := path, format := format.getD (path_suffix path) }

/-- `FontFile.with_relative_to_path`: `None` leaves the file untouched,
otherwise a copy with the base path set is returned.  (The source's
`os.path.isdir` check, which replaces a non-directory base by its directory,
is external file-system behavior folded into the caller's choice of base.) -/
def FontFile.with_relative_to_path (f : FontFile) (rel : Option String) : FontFile :=
  match rel with
  | none => f
  | some r => { f with relative_to_path := some r }

/-- Model of the external `os.path.relpath` primitive: strip the base prefix
when it is one, else return the path unchanged. -/
def relpath (path base : String) : String :=
  if startsWithStr path (base ++ "/") then ⟨path.data.drop (base.data.length + 1)⟩
  else path

/-- `FontFile.file_path_relative`: the path relative to `relative_to_path`
when set. -/
def FontFile.file_path_relative (f : FontFile) : String :=
  match f.relative_to_path with
  | none => f.file_path
  | some base => relpath f.file_path base

/-- `FontFile.file_name_without_ext`. -/
def FontFile.file_name_without_ext (f : FontFile) : String :=
  splitext_base (basename f.file_path)

/-- `FontFile.as_dict`: the `{"url": ..., "format": ...}` dict used as a CSS
`src` entry. -/
def FontFile.as_dict (f : FontFile) : List (String × CssVal) :=
  [("url", .str f.file_path_relative), ("format", .str f.format)]

/-- `FontFile.available_unicode_characters` (src/common/structs.py): the
coverage cache.  The cmap subtables of the physical font (an external read via
`fontTools.ttLib.TTFont`) are reified as `cmap_tables`, one code-point list
per subtable.  Returns the coverage together with the (possibly updated)
resource, modelling the mutation of `_unicodes_available`: a cached value is
returned as-is without consulting `cmap_tables`; otherwise the union of all
subtables is deduplicated, sorted, cached and returned. -/
def available_unicode_characters (cmap_tables : List (List Nat)) (f : FontFile) :
    List Nat × FontFile :=
  match f._unicodes_available with
  | some cached => (cached, f)
  | none =>
    let result := List.insertionSort (· ≤ ·) cmap_tables.flatten.dedup
    (result, { f with _unicodes_available := some result })

/-- `FontSubset`: a produced subset artifact — the reduced file plus the
unicode-range descriptors describing exactly what it contains. -/
structure FontSubset where
  file : FontFile
  unicode_range : List String
deriving DecidableEq

/-- `FontVariant`: one style of the family. -/
structure FontVariant where
  file : FontFile
  weight : Nat
  style : CssVal
  stretch : Option CssVal := none
  subsets : List FontSubset := []

/-- `FONT_WEIGHT_NAME_TO_VALUE` (src/common/structs.py), in dict insertion
(= iteration) order. -/
def FONT_WEIGHT_NAME_TO_VALUE : List (String × Nat) :=
  [("thin", 100), ("extralight", 200), ("light", 300), ("normal", 400),
   ("regular", 400), ("italic", 400), ("medium", 500), ("semibold", 600),
   ("bold", 700), ("extrabold", 800), ("black", 900), ("heavy", 900)]

/-- The style token of a font file path: file name, minus extension, part
after the last `-`, lowercased — as computed in `FontVariant.from_file_path`. -/
def style_params (font_file_path : String) : String :=
  toLowerStr (lastSplitDash (splitext_base (basename font_file_path)))

/-- `FontVariant.from_file_path` (src/common/structs.py): parse weight and
style out of the file name.  The weight is the value of the first table entry
whose keyword the style token starts with; when none matches, a warning is
logged and the weight falls back to `FONT_WEIGHT_NAME_TO_VALUE["normal"]`
(400).  The style is italic when `"italic"` occurs in the token. -/
def FontVariant.from_file_path (font_file_path : String) : FontVariant :=
  let params := style_params font_file_path
  let weight :=
    match FONT_WEIGHT_NAME_TO_VALUE.find? (fun kv => startsWithStr params kv.1) with
    | some kv => kv.2
    | none => 400
  { file := FontFile.from_path font_file_path,
    weight := weight,
    style := .cssStr (if containsStr params "italic" then "italic" else "normal") }

/-- The `_to_font_face` static method: `@font-face{` + `;`-joined
`key:value` properties + `}`. -/
def to_font_face (props : List (String × CssVal)) : String :=
  "@font-face\x7b" ++ joinSep ";" (props.map (fun kv => kv.1 ++ ":" ++ css_stringify kv.2)) ++ "\x7d"

/-- `FontVariant.to_css_font_faces` (src/common/structs.py): one `@font-face`
block per subset artifact, in subsets order, each with properties in insertion
order `font-family`, `font-weight`, `font-style`, [`font-stretch` when
present], `unicode-range`, `src`; optionally followed by one catch-all block
for the main font (whose range comes from the coverage cache; the physical
cmap subtables are reified as `cmap_tables` as in
`available_unicode_characters`). -/
def FontVariant.to_css_font_faces (v : FontVariant) (font_family : CssVal)
    (relative_to_path : Option String) (with_main_font : Bool)
    (cmap_tables : List (List Nat)) : List String :=
  let base_props : List (String × CssVal) :=
    [("font-family", font_family), ("font-weight", .num v.weight),
     ("font-style", v.style)] ++
    (match v.stretch with
     | some st => [("font-stretch", st)]
     | none => [])
  let subset_blocks := v.subsets.map (fun subset =>
    to_font_face (base_props ++
      [("unicode-range", .list (subset.unicode_range.map CssVal.cssStr)),
       ("src", .list [.dict ((subset.file.with_relative_to_path relative_to_path).as_dict)])]))
  if with_main_font then
    subset_blocks ++
      [to_font_face (base_props ++
        [("unicode-range",
          .list ((ints_to_unicode_range
            (available_unicode_characters cmap_tables v.file).1).map CssVal.cssStr)),
         ("src", .list [.dict ((v.file.with_relative_to_path relative_to_path).as_dict)])])]
  else subset_blocks

/-! ## The Subsetter (src/build.py) -/

/-- `MIN_CHARS_FOR_SUBSET` (src/build.py). -/
def MIN_CHARS_FOR_SUBSET : Nat := 8

/-- Model of the external `fontTools.subset.parse_unicodes` applied to the
`","`-joined descriptors: each descriptor decoded to its code points. -/
def parse_unicodes (ranges : List String) : List Nat :=
  decode_unicode_range ranges

/-- The set of code points a catalog subset requests (its nominal ranges,
decoded). -/
def requested_code_points (subset : Subset) : Finset Nat :=
  (parse_unicodes subset.as_unicode_range).toFinset

/-- The path returned by `font_file_to_woff2` (src/build.py): the output path
with its suffix replaced by `.woff2`.  The `fontTools.subset.main` invocation
itself is external; its observable effects here are this returned path and
the `unicodes` argument it is given. -/
def font_file_to_woff2_output_path (output_path : String) : String :=
  with_suffix output_path ".woff2"

/-- The `available_chars` local of `font_file_to_subset` (src/build.py):
`requested_chars.intersection(font_chars)`, where `requested_chars` is the
`set` of the parsed nominal ranges — modelled as the dedup of the parse,
filtered by membership in the coverage. -/
def available_chars_list (font_chars : List Nat) (subset : Subset) : List Nat :=
  ((parse_unicodes subset.as_unicode_range).dedup).filter
    (fun c => font_chars.contains c)

/-- `font_file_to_subset` (src/build.py).  `font_chars` is the variant's
coverage `font_var.file.available_unicode_characters()` (an external font
read, see `available_unicode_characters`), reified as a parameter.  The
requested set is the subset's nominal ranges parsed back to code points; the
available set is its intersection with the coverage (`available_chars_list`);
below `MIN_CHARS_FOR_SUBSET` the subset is skipped (`none`), otherwise the
artifact carries the woff2 output file and the encoding of exactly the
available set. -/
def font_file_to_subset (font_chars : List Nat) (subset : Subset)
    (output_path : String) : Option FontSubset :=
  let available_chars := available_chars_list font_chars subset
  let n_available_chars := available_chars.length
  if n_available_chars < MIN_CHARS_FOR_SUBSET then none
  else
    let available_unicode_range := ints_to_unicode_range available_chars
    some { file := { file_path := font_file_to_woff2_output_path output_path,
                     format := "woff2" },
           unicode_range := available_unicode_range }

/-- The `unicodes` argument `font_file_to_subset` passes to the external
subsetting primitive `font_file_to_woff2` (the `","`-joined encoding of the
available set), or `none` when the subset is skipped — the reified external
call of `font_file_to_subset`. -/
def font_file_to_subset_woff2_arg (font_chars : List Nat) (subset : Subset) :
    Option String :=
  let available_chars := available_chars_list font_chars subset
  if available_chars.length < MIN_CHARS_FOR_SUBSET then none
  else some (joinSep "," (ints_to_unicode_range available_chars))

/-- The per-subset output path used by `font_file_to_subsets`:
`output_dir/<name>.<subset>.woff2`. -/
def subset_output_path (output_dir : String) (v : FontVariant) (s : Subset) : String :=
  output_dir ++ "/" ++ v.file.file_name_without_ext ++ "." ++ s.value ++ ".woff2"

/-- `font_file_to_subsets` (src/build.py): when the variant's backing file is
missing (`os.path.isfile`, an external check reified as `file_on_disk`) the
function returns immediately and the variant is untouched; otherwise every
catalog subset is processed and the non-`none` artifacts are collected, in
catalog order, into the variant's subsets list. -/
def font_file_to_subsets (file_on_disk : Bool) (font_chars : List Nat)
    (output_dir : String) (v : FontVariant) : FontVariant :=
  if file_on_disk = false then v
  else
    { v with subsets :=
        (Subset.all.map (fun s =>
          font_file_to_subset font_chars s (subset_output_path output_dir v s))).reduceOption }

/-! ## Lemmas: hex rendering round-trips through parsing -/

lemma hexDigitVal_hexDigitChar {k : Nat} (h : k < 16) :
    hexDigitVal (hexDigitChar k) = k := by
  interval_cases k <;> decide

lemma hexDigitChar_ne_dash {k : Nat} (h : k < 16) : hexDigitChar k ≠ '-' := by
  interval_cases k <;> decide

lemma dash_not_mem_hexDigitsCore : ∀ fuel n, '-' ∉ hexDigitsCore fuel n := by
  intro fuel
  induction fuel with
  | zero => intro n; cases n <;> simp [hexDigitsCore]
  | succ fuel ih =>
    intro n
    cases n with
    | zero => simp [hexDigitsCore]
    | succ m =>
      simp only [hexDigitsCore, List.mem_append, List.mem_singleton, not_or]
      refine ⟨ih _, fun hEq => ?_⟩
      exact hexDigitChar_ne_dash (Nat.mod_lt _ (by omega)) hEq.symm

lemma hexVal_core_foldl :
    ∀ fuel n, n ≤ fuel → ∀ a : Nat,
      (hexDigitsCore fuel n).foldl (fun a c => 16 * a + hexDigitVal c) a
        = a * 16 ^ (hexDigitsCore fuel n).length + n := by
  intro fuel
  induction fuel with
  | zero =>
    intro n hn a
    obtain rfl : n = 0 := Nat.le_zero.mp hn
    simp [hexDigitsCore]
  | succ fuel ih =>
    intro n hn a
    cases n with
    | zero => simp [hexDigitsCore]
    | succ m =>
      have hdiv : (m + 1) / 16 ≤ fuel := by
        have := Nat.div_lt_self (Nat.succ_pos m) (by omega : 1 < 16)
        omega
      simp only [hexDigitsCore, List.foldl_append, List.foldl_cons, List.foldl_nil,
        List.length_append, List.length_cons, List.length_nil, Nat.zero_add]
      rw [ih _ hdiv a, hexDigitVal_hexDigitChar (Nat.mod_lt _ (by omega)), pow_succ,
        ← Nat.mul_assoc]
      generalize a * 16 ^ (hexDigitsCore fuel ((m + 1) / 16)).length = C
      omega

lemma hexVal_enc (n : Nat) : hexVal (enc n).data = n := by
  by_cases h : n = 0
  · subst h; decide
  · have := hexVal_core_foldl n n le_rfl 0
    simpa [enc, h, hexVal, hexDigits] using this

lemma dash_not_mem_enc (n : Nat) : '-' ∉ (enc n).data := by
  by_cases h : n = 0
  · subst h; decide
  · simpa [enc, h, hexDigits] using dash_not_mem_hexDigitsCore n n

lemma splitAtDash_no_dash : ∀ l : List Char, '-' ∉ l → splitAtDash l = (l, none) := by
  intro l
  induction l with
  | nil => intro _; rfl
  | cons c cs ih =>
    intro h
    simp only [List.mem_cons, not_or] at h
    simp [splitAtDash, Ne.symm h.1, ih h.2]

lemma splitAtDash_append : ∀ (a b : List Char), '-' ∉ a →
    splitAtDash (a ++ '-' :: b) = (a, some b) := by
  intro a b
  induction a with
  | nil => intro _; simp [splitAtDash]
  | cons c cs ih =>
    intro h
    simp only [List.mem_cons, not_or] at h
    simp [splitAtDash, Ne.symm h.1, ih h.2]

lemma chunkCodes_single (x : Nat) : chunkCodes (x, x) = [x] := by
  simp [chunkCodes]

lemma decodeRangeStr_rangeStr {p : Nat × Nat} (h : p.1 ≤ p.2) :
    decodeRangeStr (rangeStr p) = chunkCodes p := by
  obtain ⟨s, e⟩ := p
  simp only [rangeStr]
  by_cases hlt : e > s
  · rw [if_pos hlt]
    have hdata : ("U+" ++ enc s ++ "-" ++ enc e).data
        = 'U' :: '+' :: ((enc s).data ++ '-' :: (enc e).data) := by
      simp [String.data_append]
    simp only [decodeRangeStr, hdata, List.drop_succ_cons, List.drop_zero,
      splitAtDash_append _ _ (dash_not_mem_enc s), hexVal_enc]
    rfl
  · have he : e = s := by omega
    subst he
    rw [if_neg hlt]
    have hdata : ("U+" ++ enc e).data = 'U' :: '+' :: (enc e).data := by
      simp [String.data_append]
    simp only [decodeRangeStr, hdata, List.drop_succ_cons, List.drop_zero,
      splitAtDash_no_dash _ (dash_not_mem_enc e), hexVal_enc]
    rw [chunkCodes_single]

/-! ## Lemmas: the encoder's interval scan -/

lemma decodeChunks_cons (p : Nat × Nat) (l : List (Nat × Nat)) :
    decodeChunks (p :: l) = chunkCodes p ++ decodeChunks l := by
  simp [decodeChunks]

lemma rangeChunksAux_wf : ∀ (rest : List Nat) (s e : Nat), s ≤ e →
    ∀ p ∈ rangeChunksAux s e rest, p.1 ≤ p.2 := by
  intro rest
  induction rest with
  | nil =>
    intro s e hse p hp
    simp only [rangeChunksAux, List.mem_singleton] at hp
    simp [hp, hse]
  | cons i rest ih =>
    intro s e hse p hp
    simp only [rangeChunksAux] at hp
    by_cases hi : i = e + 1
    · rw [if_pos hi] at hp
      exact ih s i (by omega) p hp
    · rw [if_neg hi] at hp
      rcases List.mem_cons.mp hp with h1 | h2
      · simp [h1, hse]
      · exact ih i i le_rfl p h2

lemma decodeChunks_rangeChunksAux : ∀ (rest : List Nat) (s e : Nat), s ≤ e →
    List.Chain (· < ·) e rest →
    decodeChunks (rangeChunksAux s e rest) = chunkCodes (s, e) ++ rest := by
  intro rest
  induction rest with
  | nil =>
    intro s e _ _
    simp [rangeChunksAux, decodeChunks]
  | cons i rest ih =>
    intro s e hse hch
    rcases hch with _ | ⟨hei, hch⟩
    simp only [rangeChunksAux]
    by_cases hi : i = e + 1
    · rw [if_pos hi, ih s i (by omega) (hi ▸ hch)]
      subst hi
      have hstep : chunkCodes (s, e + 1) = chunkCodes (s, e) ++ [e + 1] := by
        simp only [chunkCodes]
        have h1 : e + 1 + 1 - s = (e + 1 - s) + 1 := by omega
        rw [h1, List.range'_concat]
        congr 2
        omega
      rw [hstep, List.append_assoc, List.singleton_append]
    · rw [if_neg hi, decodeChunks_cons, ih i i le_rfl hch, chunkCodes_single,
        List.singleton_append]

lemma rangeChunksAux_chain : ∀ (rest : List Nat) (s e : Nat),
    List.Chain (· < ·) e rest →
    List.Chain' (fun p q : Nat × Nat => p.2 + 1 < q.1) (rangeChunksAux s e rest)
    ∧ ∀ q ∈ (rangeChunksAux s e rest).head?, q.1 = s := by
  intro rest
  induction rest with
  | nil =>
    intro s e _
    constructor
    · simp [rangeChunksAux]
    · intro q hq
      simp only [rangeChunksAux, List.head?_cons, Option.mem_some_iff] at hq
      simp [← hq]
  | cons i rest ih =>
    intro s e hch
    rcases hch with _ | ⟨hei, hch⟩
    simp only [rangeChunksAux]
    by_cases hi : i = e + 1
    · rw [if_pos hi]
      exact ih s i hch
    · rw [if_neg hi]
      obtain ⟨ihc, ihh⟩ := ih i i hch
      constructor
      · rw [List.chain'_cons']
        refine ⟨fun y hy => ?_, ihc⟩
        have := ihh y hy
        simp only [this]
        omega
      · intro q hq
        simp only [List.head?_cons, Option.mem_some_iff] at hq
        simp [← hq]

/-! ## Lemmas: `sorted` (insertion sort model) -/

lemma sortNat_sorted (l : List Nat) : List.Sorted (· ≤ ·) (sortNat l) :=
  List.sorted_insertionSort _ l

lemma sortNat_perm (l : List Nat) : (sortNat l).Perm l :=
  List.perm_insertionSort _ l

lemma sortNat_nodup {l : List Nat} (h : l.Nodup) : (sortNat l).Nodup :=
  ((sortNat_perm l).nodup_iff).mpr h

lemma sortNat_sorted_lt {l : List Nat} (h : l.Nodup) :
    List.Sorted (· < ·) (sortNat l) :=
  (sortNat_sorted l).lt_of_le (sortNat_nodup h)

lemma sortNat_eq_self {l : List Nat} (h : List.Sorted (· ≤ ·) l) : sortNat l = l :=
  List.eq_of_perm_of_sorted (sortNat_perm l) (sortNat_sorted l) h

/-! ## Lemmas: encoder round-trip and shape -/

lemma rangeChunks_wf {l : List Nat} : ∀ p ∈ rangeChunks l, p.1 ≤ p.2 := by
  unfold rangeChunks
  cases sortNat l with
  | nil => simp
  | cons x rest => exact rangeChunksAux_wf rest x x le_rfl

lemma decodeChunks_rangeChunks {l : List Nat} (h : l.Nodup) :
    decodeChunks (rangeChunks l) = sortNat l := by
  unfold rangeChunks
  cases hs : sortNat l with
  | nil => simp [decodeChunks]
  | cons x rest =>
    have hlt : List.Sorted (· < ·) (x :: rest) := hs ▸ sortNat_sorted_lt h
    have hchain : List.Chain (· < ·) x rest := List.chain_iff_pairwise.mpr hlt
    rw [decodeChunks_rangeChunksAux rest x x le_rfl hchain, chunkCodes_single,
      List.singleton_append]

lemma decode_unicode_range_chunks (l : List Nat) :
    decode_unicode_range (ints_to_unicode_range l) = decodeChunks (rangeChunks l) := by
  unfold decode_unicode_range ints_to_unicode_range decodeChunks
  rw [List.map_map]
  congr 1
  refine List.map_congr_left (fun p hp => ?_)
  exact decodeRangeStr_rangeStr (rangeChunks_wf p hp)

lemma decode_encode {l : List Nat} (h : l.Nodup) :
    decode_unicode_range (ints_to_unicode_range l) = sortNat l := by
  rw [decode_unicode_range_chunks, decodeChunks_rangeChunks h]

lemma rangeChunks_sortNat (l : List Nat) : rangeChunks (sortNat l) = rangeChunks l := by
  unfold rangeChunks
  rw [sortNat_eq_self (sortNat_sorted l)]

lemma rangeChunks_chain {l : List Nat} (h : l.Nodup) :
    List.Chain' (fun p q : Nat × Nat => p.2 + 1 < q.1) (rangeChunks l) := by
  unfold rangeChunks
  cases hs : sortNat l with
  | nil => simp
  | cons x rest =>
    have hlt : List.Sorted (· < ·) (x :: rest) := hs ▸ sortNat_sorted_lt h
    have hchain : List.Chain (· < ·) x rest := List.chain_iff_pairwise.mpr hlt
    exact (rangeChunksAux_chain rest x x hchain).1

lemma chain'_fst_of_chain' : ∀ L : List (Nat × Nat),
    List.Chain' (fun p q : Nat × Nat => p.2 + 1 < q.1) L →
    (∀ p ∈ L, p.1 ≤ p.2) →
    List.Chain' (fun p q : Nat × Nat => p.1 < q.1) L := by
  intro L
  induction L with
  | nil => simp
  | cons p L ih =>
    intro hc hwf
    rw [List.chain'_cons'] at hc ⊢
    refine ⟨fun y hy => ?_, ih hc.2 (fun q hq => hwf q (List.mem_cons_of_mem _ hq))⟩
    have h1 := hc.1 y hy
    have h2 := hwf p (List.mem_cons_self p L)
    omega

/-! ## C1: Range Encoder round-trip -/

/-- C1. Range Encoder round-trip: for every finite set of non-negative
integers (a duplicate-free list), the descriptor sequence returned by
`ints_to_unicode_range` decodes to exactly the input set (same `toFinset`,
duplicate-free decoding), empty input yields the empty sequence, and
re-encoding the decoded form of the output reproduces the same descriptor
sequence. -/
theorem ints_to_unicode_range_roundtrip (l : List Nat) (h : l.Nodup) :
    (decode_unicode_range (ints_to_unicode_range l)).toFinset = l.toFinset
    ∧ (decode_unicode_range (ints_to_unicode_range l)).Nodup
    ∧ ints_to_unicode_range ([] : List Nat) = []
    ∧ ints_to_unicode_range (decode_unicode_range (ints_to_unicode_range l))
        = ints_to_unicode_range l := by
  have hd := decode_encode h
  refine ⟨?_, ?_, rfl, ?_⟩
  · rw [hd]
    ext a
    simp [List.mem_toFinset, (sortNat_perm l).mem_iff]
  · rw [hd]
    exact sortNat_nodup h
  · rw [hd]
    unfold ints_to_unicode_range
    rw [rangeChunks_sortNat]

/-- Witness for C1 at the concrete set `{5, 1, 2, 3, 10}`. -/
theorem ints_to_unicode_range_roundtrip_witness :
    (decode_unicode_range (ints_to_unicode_range [5, 1, 2, 3, 10])).toFinset
        = ([5, 1, 2, 3, 10] : List Nat).toFinset
    ∧ (decode_unicode_range (ints_to_unicode_range [5, 1, 2, 3, 10])).Nodup
    ∧ ints_to_unicode_range ([] : List Nat) = []
    ∧ ints_to_unicode_range (decode_unicode_range (ints_to_unicode_range [5, 1, 2, 3, 10]))
        = ints_to_unicode_range [5, 1, 2, 3, 10] :=
  ints_to_unicode_range_roundtrip [5, 1, 2, 3, 10] (by decide)

/-! ## C7: Encoder minimality and descriptor shape -/

/-- C7. Encoder minimality: on duplicate-free input, the emitted interval
sequence has no two adjacent mergeable descriptors (each gap is at least 2),
interval starts are strictly ascending, every interval is well-formed
(`start ≤ end`), and an interval whose end equals its start is rendered as a
single-point descriptor `U+start` without an end part; the returned strings
are exactly these intervals rendered in order. -/
theorem ints_to_unicode_range_minimal (l : List Nat) (h : l.Nodup) :
    ints_to_unicode_range l = (rangeChunks l).map rangeStr
    ∧ List.Chain' (fun p q : Nat × Nat => p.2 + 1 < q.1) (rangeChunks l)
    ∧ List.Chain' (fun p q : Nat × Nat => p.1 < q.1) (rangeChunks l)
    ∧ (∀ p ∈ rangeChunks l, p.1 ≤ p.2)
    ∧ (∀ p ∈ rangeChunks l, p.2 = p.1 → rangeStr p = "U+" ++ enc p.1) := by
  refine ⟨rfl, rangeChunks_chain h,
    chain'_fst_of_chain' _ (rangeChunks_chain h) rangeChunks_wf,
    rangeChunks_wf, fun p _ hpe => ?_⟩
  simp [rangeStr, hpe]

/-- Witness for C7 at the concrete set `{5, 1, 2, 3, 10}`. -/
theorem ints_to_unicode_range_minimal_witness :
    ints_to_unicode_range [5, 1, 2, 3, 10] = (rangeChunks [5, 1, 2, 3, 10]).map rangeStr
    ∧ List.Chain' (fun p q : Nat × Nat => p.2 + 1 < q.1) (rangeChunks [5, 1, 2, 3, 10])
    ∧ List.Chain' (fun p q : Nat × Nat => p.1 < q.1) (rangeChunks [5, 1, 2, 3, 10])
    ∧ (∀ p ∈ rangeChunks [5, 1, 2, 3, 10], p.1 ≤ p.2)
    ∧ (∀ p ∈ rangeChunks [5, 1, 2, 3, 10], p.2 = p.1 → rangeStr p = "U+" ++ enc p.1) :=
  ints_to_unicode_range_minimal [5, 1, 2, 3, 10] (by decide)

/-! ## C10: duplicate input breaks minimality -/

/-- C10. Duplicate-input edge case: on the list `[1, 1]` the sorted scan
closes the current interval at the repeated occurrence and opens a new one,
so the output holds two descriptors covering the same code point and differs
from the encoding of the underlying set `{1}` (the dedup of the input); the
minimality/round-trip guarantees are thus specific to duplicate-free input. -/
theorem ints_to_unicode_range_duplicate_input :
    ints_to_unicode_range [1, 1] = ["U+1", "U+1"]
    ∧ rangeChunks [1, 1] = [(1, 1), (1, 1)]
    ∧ ints_to_unicode_range (([1, 1] : List Nat).dedup) = ["U+1"]
    ∧ ints_to_unicode_range [1, 1] ≠ ints_to_unicode_range (([1, 1] : List Nat).dedup) := by
  refine ⟨?_, ?_, ?_, ?_⟩ <;> decide

/-! ## Lemmas: the subsetter's intersection -/

lemma available_chars_nodup (font_chars : List Nat) (subset : Subset) :
    (available_chars_list font_chars subset).Nodup :=
  (List.nodup_dedup _).filter _

lemma available_chars_toFinset (font_chars : List Nat) (subset : Subset) :
    (available_chars_list font_chars subset).toFinset
      = requested_code_points subset ∩ font_chars.toFinset := by
  ext a
  simp [available_chars_list, requested_code_points, List.mem_filter, List.mem_dedup,
    List.elem_iff]

lemma available_chars_length (font_chars : List Nat) (subset : Subset) :
    (available_chars_list font_chars subset).length
      = (requested_code_points subset ∩ font_chars.toFinset).card := by
  rw [← available_chars_toFinset,
    List.toFinset_card_of_nodup (available_chars_nodup font_chars subset)]

lemma sortNat_eq_of_perm {l m : List Nat} (h : l.Perm m) : sortNat l = sortNat m :=
  List.eq_of_perm_of_sorted ((sortNat_perm l).trans (h.trans (sortNat_perm m).symm))
    (sortNat_sorted l) (sortNat_sorted m)

lemma ints_to_unicode_range_perm {l m : List Nat} (h : l.Perm m) :
    ints_to_unicode_range l = ints_to_unicode_range m := by
  unfold ints_to_unicode_range rangeChunks
  rw [sortNat_eq_of_perm h]

/-! ## C2: the minimum-size threshold boundary -/

/-- C2. Threshold boundary: for any coverage (variant) and catalog subset,
an intersection of requested and supported code points with exactly 8
elements makes `font_file_to_subset` produce an artifact, while 7 or fewer
elements make it return `none`. -/
theorem font_file_to_subset_threshold (font_chars : List Nat) (subset : Subset)
    (output_path : String) :
    ((requested_code_points subset ∩ font_chars.toFinset).card = 8 →
      ∃ a, font_file_to_subset font_chars subset output_path = some a)
    ∧ ((requested_code_points subset ∩ font_chars.toFinset).card ≤ 7 →
      font_file_to_subset font_chars subset output_path = none) := by
  have hlen := available_chars_length font_chars subset
  constructor
  · intro h8
    refine ⟨{ file := { file_path := font_file_to_woff2_output_path output_path,
                        format := "woff2" },
              unicode_range :=
                ints_to_unicode_range (available_chars_list font_chars subset) }, ?_⟩
    simp only [font_file_to_subset]
    rw [if_neg (by simp only [MIN_CHARS_FOR_SUBSET]; omega)]
  · intro h7
    simp only [font_file_to_subset]
    rw [if_pos (by simp only [MIN_CHARS_FOR_SUBSET]; omega)]

set_option maxRecDepth 8000 in
/-- Witness for C2: a Georgian coverage of exactly 8 code points of the
`U+10A0-10FF` range produces an artifact; one of exactly 7 produces none. -/
theorem font_file_to_subset_threshold_witness :
    (∃ a, font_file_to_subset
        [0x10A0, 0x10A1, 0x10A2, 0x10A3, 0x10A4, 0x10A5, 0x10A6, 0x10A7]
        Subset.georgian "dist/Iosevka.georgian.woff2" = some a)
    ∧ font_file_to_subset
        [0x10A0, 0x10A1, 0x10A2, 0x10A3, 0x10A4, 0x10A5, 0x10A6]
        Subset.georgian "dist/Iosevka.georgian.woff2" = none :=
  ⟨(font_file_to_subset_threshold _ Subset.georgian _).1 (by decide),
   (font_file_to_subset_threshold _ Subset.georgian _).2 (by decide)⟩

/-! ## C3: subset artifact range fidelity -/

/-- C3. Subset artifact range fidelity: every artifact produced by
`font_file_to_subset` has a `unicode_range` that decodes (without
duplicates) to exactly the intersection of the subset's requested code
points with the font's supported code points; the range is determined by
that intersection alone (any duplicate-free enumeration of the intersection
encodes to it), and the external subsetting primitive is invoked with the
`","`-joined encoding of exactly that intersection — never the nominal
catalog ranges. -/
theorem font_file_to_subset_range_fidelity (font_chars : List Nat)
    (subset : Subset) (output_path : String) (artifact : FontSubset)
    (h : font_file_to_subset font_chars subset output_path = some artifact) :
    (decode_unicode_range artifact.unicode_range).toFinset
        = requested_code_points subset ∩ font_chars.toFinset
    ∧ (decode_unicode_range artifact.unicode_range).Nodup
    ∧ (∀ l : List Nat, l.Nodup →
        l.toFinset = requested_code_points subset ∩ font_chars.toFinset →
        artifact.unicode_range = ints_to_unicode_range l)
    ∧ font_file_to_subset_woff2_arg font_chars subset
        = some (joinSep "," artifact.unicode_range) := by
  simp only [font_file_to_subset] at h
  by_cases hlt : (available_chars_list font_chars subset).length < MIN_CHARS_FOR_SUBSET
  · rw [if_pos hlt] at h
    cases h
  · rw [if_neg hlt] at h
    obtain rfl := (Option.some.inj h).symm
    have hnd := available_chars_nodup font_chars subset
    have hdec := decode_encode hnd
    refine ⟨?_, ?_, ?_, ?_⟩
    · show (decode_unicode_range
        (ints_to_unicode_range (available_chars_list font_chars subset))).toFinset = _
      rw [hdec, ← available_chars_toFinset]
      ext a
      simp [List.mem_toFinset, (sortNat_perm _).mem_iff]
    · show (decode_unicode_range
        (ints_to_unicode_range (available_chars_list font_chars subset))).Nodup
      rw [hdec]
      exact sortNat_nodup hnd
    · intro l hl hset
      show ints_to_unicode_range (available_chars_list font_chars subset)
        = ints_to_unicode_range l
      refine ints_to_unicode_range_perm ?_
      exact List.perm_of_nodup_nodup_toFinset_eq hnd hl
        (by rw [available_chars_toFinset, hset])
    · simp only [font_file_to_subset_woff2_arg]
      rw [if_neg hlt]

set_option maxRecDepth 8000 in
/-- Witness for C3 at a Georgian coverage of 8 contiguous code points. -/
theorem font_file_to_subset_range_fidelity_witness :
    (decode_unicode_range (["U+10A0-10A7"] : List String)).toFinset
        = requested_code_points Subset.georgian
            ∩ ([0x10A0, 0x10A1, 0x10A2, 0x10A3, 0x10A4, 0x10A5, 0x10A6, 0x10A7] :
                List Nat).toFinset
    ∧ (decode_unicode_range (["U+10A0-10A7"] : List String)).Nodup
    ∧ (∀ l : List Nat, l.Nodup →
        l.toFinset = requested_code_points Subset.georgian
            ∩ ([0x10A0, 0x10A1, 0x10A2, 0x10A3, 0x10A4, 0x10A5, 0x10A6, 0x10A7] :
                List Nat).toFinset →
        (["U+10A0-10A7"] : List String) = ints_to_unicode_range l)
    ∧ font_file_to_subset_woff2_arg
        [0x10A0, 0x10A1, 0x10A2, 0x10A3, 0x10A4, 0x10A5, 0x10A6, 0x10A7]
        Subset.georgian
        = some (joinSep "," (["U+10A0-10A7"] : List String)) := by
  have := font_file_to_subset_range_fidelity
    [0x10A0, 0x10A1, 0x10A2, 0x10A3, 0x10A4, 0x10A5, 0x10A6, 0x10A7]
    Subset.georgian "dist/Iosevka.georgian.woff2"
    { file := { file_path := "dist/Iosevka.georgian.woff2", format := "woff2" },
      unicode_range := ["U+10A0-10A7"] }
    (by decide)
  exact this

/-! ## C8: a missing source resource is skippable, not fatal -/

/-- C8. Missing source resource: when the variant's backing font file does
not exist (the reified `os.path.isfile` check is false),
`font_file_to_subsets` returns with the variant unchanged — in particular,
a variant whose subsets list is empty still has no artifacts afterwards —
rather than failing. -/
theorem font_file_to_subsets_missing_file (font_chars : List Nat)
    (output_dir : String) (v : FontVariant) (h : v.subsets = []) :
    font_file_to_subsets false font_chars output_dir v = v
    ∧ (font_file_to_subsets false font_chars output_dir v).subsets = [] := by
  refine ⟨?_, ?_⟩ <;> simp [font_file_to_subsets, h]

/-- Witness for C8 at a concrete fresh variant. -/
theorem font_file_to_subsets_missing_file_witness :
    font_file_to_subsets false [65, 66] "dist"
        { file := FontFile.from_path "dist/Iosevka-Bold.woff2", weight := 700,
          style := CssVal.cssStr "normal" }
      = { file := FontFile.from_path "dist/Iosevka-Bold.woff2", weight := 700,
          style := CssVal.cssStr "normal" }
    ∧ (font_file_to_subsets false [65, 66] "dist"
        { file := FontFile.from_path "dist/Iosevka-Bold.woff2", weight := 700,
          style := CssVal.cssStr "normal" }).subsets = [] :=
  font_file_to_subsets_missing_file [65, 66] "dist" _ rfl

/-! ## C9: the coverage cache -/

/-- C9. Coverage cache invariant: starting from a resource whose cache field
is unset, one call computes the coverage, stores it in the cached field and
returns it; any later call returns the very same value and state without
recomputation (the later call's cmap tables are not consulted); and the
returned value is a sorted, duplicate-free enumeration of the union of all
cmap subtable entries. -/
theorem available_unicode_characters_cache (tables later_tables : List (List Nat))
    (f : FontFile) (h : f._unicodes_available = none) :
    ((available_unicode_characters tables f).2)._unicodes_available
        = some (available_unicode_characters tables f).1
    ∧ available_unicode_characters later_tables (available_unicode_characters tables f).2
        = ((available_unicode_characters tables f).1,
           (available_unicode_characters tables f).2)
    ∧ List.Sorted (· ≤ ·) (available_unicode_characters tables f).1
    ∧ ((available_unicode_characters tables f).1).Nodup
    ∧ ((available_unicode_characters tables f).1).toFinset
        = tables.flatten.toFinset := by
  simp only [available_unicode_characters, h]
  refine ⟨trivial, trivial, List.sorted_insertionSort _ _, ?_, ?_⟩
  · exact ((List.perm_insertionSort _ _).nodup_iff).mpr (List.nodup_dedup _)
  · ext a
    simp [List.mem_toFinset, (List.perm_insertionSort _ _).mem_iff, List.mem_dedup]

/-- Witness for C9 at a two-subtable font with overlapping entries. -/
theorem available_unicode_characters_cache_witness :
    ((available_unicode_characters [[66, 65], [65, 97]]
        { file_path := "a.ttf", format := "ttf" }).2)._unicodes_available
        = some (available_unicode_characters [[66, 65], [65, 97]]
            { file_path := "a.ttf", format := "ttf" }).1
    ∧ available_unicode_characters [[900]]
          (available_unicode_characters [[66, 65], [65, 97]]
            { file_path := "a.ttf", format := "ttf" }).2
        = ((available_unicode_characters [[66, 65], [65, 97]]
              { file_path := "a.ttf", format := "ttf" }).1,
           (available_unicode_characters [[66, 65], [65, 97]]
              { file_path := "a.ttf", format := "ttf" }).2)
    ∧ List.Sorted (· ≤ ·) (available_unicode_characters [[66, 65], [65, 97]]
        { file_path := "a.ttf", format := "ttf" }).1
    ∧ ((available_unicode_characters [[66, 65], [65, 97]]
        { file_path := "a.ttf", format := "ttf" }).1).Nodup
    ∧ ((available_unicode_characters [[66, 65], [65, 97]]
        { file_path := "a.ttf", format := "ttf" }).1).toFinset
        = ([[66, 65], [65, 97]] : List (List Nat)).flatten.toFinset :=
  available_unicode_characters_cache [[66, 65], [65, 97]] [[900]]
    { file_path := "a.ttf", format := "ttf" } rfl

/-! ## C4: CSS string serialization -/

/-- C4 counterexample: the whitespace-free string `"local"` is not rendered
as a bare token — `css_stringify` JSON-quotes it like every plain string. -/
theorem css_stringify_quotes_counterexample :
    css_stringify (CssVal.str "local") = "\"local\""
    ∧ css_stringify (CssVal.str "local") ≠ "local" := by
  have h : css_stringify (CssVal.str "local") = json_dumps_str "local" := by
    simp [css_stringify]
  rw [h]
  refine ⟨?_, ?_⟩ <;> decide

/-- C4 (amended). `css_stringify` renders every plain string value —
whether or not it contains whitespace — as a JSON-quoted string (the output
begins and ends with a double quote); bare (unquoted) tokens are produced
exactly for `CssStr`-wrapped values, which are emitted verbatim; numbers
render as decimal numeric tokens; and dict values render in function-call
syntax `key(value)`. -/
theorem css_stringify_rendering (s k : String) (v : CssVal) (n : Nat) :
    css_stringify (CssVal.str s) = json_dumps_str s
    ∧ (css_stringify (CssVal.str s)).data.head? = some '"'
    ∧ (css_stringify (CssVal.str s)).data.getLast? = some '"'
    ∧ css_stringify (CssVal.cssStr s) = s
    ∧ css_stringify (CssVal.num n) = toString n
    ∧ css_stringify (CssVal.dict [(k, v)]) = k ++ "(" ++ css_stringify v ++ ")" := by
  have hdata : (json_dumps_str s).data
      = ('"' :: (s.data.map jsonEscapeChar).flatten) ++ ['"'] := by
    simp [json_dumps_str]
  refine ⟨by simp [css_stringify], ?_, ?_, by simp [css_stringify],
    by simp [css_stringify], ?_⟩
  · simp [css_stringify, hdata]
  · simp only [css_stringify]
    rw [hdata]
    exact List.getLast?_concat _
  · simp [css_stringify, css_stringify_entries, joinSep]

/-! ## C5: weight parsing from file names -/

/-- C5 counterexample: `light` is a table keyword with mapped weight 300 and
the style token of `Iosevka-ExtraLight.woff2` (namely `extralight`) ends in
it, yet the parser resolves weight 200 — the code matches keywords as
prefixes of the token (`startswith`), not as suffixes. -/
theorem from_file_path_weight_counterexample :
    ("light", 300) ∈ FONT_WEIGHT_NAME_TO_VALUE
    ∧ endsWithStr (style_params "Iosevka-ExtraLight.woff2") "light" = true
    ∧ (FontVariant.from_file_path "Iosevka-ExtraLight.woff2").weight = 200 := by
  refine ⟨?_, ?_, ?_⟩ <;> decide

/-- C5 (amended). Weight parsing matches table keywords as prefixes of the
style token, first match in table order: a token equal to a keyword — or
extending it, as in the `...Italic` styles — resolves (case-insensitively)
to that keyword's mapped weight; a token extended by `Italic` also sets the
italic style; an unrecognized token resolves to the fallback weight 400; and
parsing is total, never an error. -/
theorem from_file_path_weight (k : String) (w : Nat)
    (h : (k, w) ∈ FONT_WEIGHT_NAME_TO_VALUE) :
    (FontVariant.from_file_path ("fonts/Iosevka-" ++ k ++ ".woff2")).weight = w
    ∧ (FontVariant.from_file_path ("fonts/Iosevka-" ++ k ++ "Italic.woff2")).weight = w
    ∧ (FontVariant.from_file_path ("fonts/Iosevka-" ++ k ++ "Italic.woff2")).style
        = CssVal.cssStr "italic"
    ∧ (FontVariant.from_file_path "fonts/Iosevka-BOLD.woff2").weight = 700
    ∧ (FontVariant.from_file_path "fonts/Iosevka-Wobbly.woff2").weight = 400 := by
  fin_cases h <;> exact ⟨by decide, by decide, by rfl, by decide, by decide⟩

/-- Witness for C5 (amended) at the keyword `bold`. -/
theorem from_file_path_weight_witness :
    (FontVariant.from_file_path ("fonts/Iosevka-" ++ "bold" ++ ".woff2")).weight = 700
    ∧ (FontVariant.from_file_path
        ("fonts/Iosevka-" ++ "bold" ++ "Italic.woff2")).weight = 700
    ∧ (FontVariant.from_file_path
        ("fonts/Iosevka-" ++ "bold" ++ "Italic.woff2")).style = CssVal.cssStr "italic"
    ∧ (FontVariant.from_file_path "fonts/Iosevka-BOLD.woff2").weight = 700
    ∧ (FontVariant.from_file_path "fonts/Iosevka-Wobbly.woff2").weight = 400 :=
  from_file_path_weight "bold" 700 (by decide)

/-! ## C6: CSS block and property order -/

lemma css_stringify_list_map_cssStr : ∀ l : List String,
    css_stringify_list (l.map CssVal.cssStr) = l := by
  intro l
  induction l with
  | nil => simp [css_stringify_list]
  | cons x xs ih => simp [css_stringify_list, css_stringify, ih]

lemma with_relative_to_path_format (f : FontFile) (rel : Option String) :
    (f.with_relative_to_path rel).format = f.format := by
  cases rel <;> rfl

/-- C6. CSS block and property order: without the optional catch-all block,
`to_css_font_faces` yields exactly one `@font-face` block per subset
artifact, in subsets (catalog) order, and each block lists its properties in
the fixed order `font-family`, `font-weight`, `font-style`, [`font-stretch`
when present], `unicode-range`, `src`. -/
theorem to_css_font_faces_blocks (v : FontVariant) (font_family : CssVal)
    (rel : Option String) (cmap_tables : List (List Nat)) :
    v.to_css_font_faces font_family rel false cmap_tables
      = v.subsets.map (fun subset =>
          "@font-face\x7b"
            ++ ("font-family" ++ ":" ++ css_stringify font_family) ++ ";"
            ++ ("font-weight" ++ ":" ++ toString v.weight) ++ ";"
            ++ ("font-style" ++ ":" ++ css_stringify v.style)
            ++ (match v.stretch with
                | none => ""
                | some st => ";" ++ ("font-stretch" ++ ":" ++ css_stringify st))
            ++ ";" ++ ("unicode-range" ++ ":" ++ joinSep "," subset.unicode_range)
            ++ ";" ++ ("src" ++ ":"
              ++ ("url" ++ "(" ++ json_dumps_str
                    (subset.file.with_relative_to_path rel).file_path_relative ++ ")"
                  ++ " "
                  ++ ("format" ++ "(" ++ json_dumps_str subset.file.format ++ ")")))
            ++ "\x7d") := by
  unfold FontVariant.to_css_font_faces
  simp only [Bool.false_eq_true, if_false]
  refine List.map_congr_left (fun subset _ => ?_)
  cases hst : v.stretch with
  | none =>
    simp only [hst, to_font_face, FontFile.as_dict, List.append_nil, List.nil_append,
      List.cons_append, List.map_cons, List.map_nil, joinSep, css_stringify,
      css_stringify_list, css_stringify_entries, css_stringify_list_map_cssStr,
      with_relative_to_path_format, String.append_empty, String.append_assoc]
  | some st =>
    simp only [hst, to_font_face, FontFile.as_dict, List.append_nil, List.nil_append,
      List.cons_append, List.map_cons, List.map_nil, joinSep, css_stringify,
      css_stringify_list, css_stringify_entries, css_stringify_list_map_cssStr,
      with_relative_to_path_format, String.append_empty, String.append_assoc]
